import Mathlib

/-!
Verification development for the WDRT extreme-sea-state contour module
(`WDRT/ESSC.py`).  The numeric pipeline is embedded shallowly over `ℚ`:
all arithmetic the Python source performs itself (indexing, binning,
slicing, weights, rotations, penalty objectives, linspace/arange grids)
is translated literally, while the transcendental library primitives the
source calls (`np.cos`, `np.sin`, `np.pi`, `scipy.stats` cdf/ppf
functions, `scipy.stats.kendalltau`, `np.sqrt`, `np.exp`) are abstracted
as rational-valued parameters collected in the structure `Prims`; every
theorem quantifies over those parameters, so it holds in particular for
the real transcendental functions.  Python exceptions are modelled with
`Option`/`Except`.  Floating point is modelled as exact rational
arithmetic; where the source divides by a quantity that can be zero the
`ℚ` convention `x / 0 = 0` is noted at the definition.
-/

/-- Abstracted transcendental primitives used by `ESSC.py` through
`numpy`/`scipy`.  Each field stands for the corresponding library
function (restricted to the argument shapes the source uses); `pi`
stands for `np.pi`.  Location-scale families are expanded the way
`scipy.stats` defines them (`ppf(q, loc, scale) = loc + scale * ppf(q)`
for `norm`). -/
structure Prims where
  cos : ℚ → ℚ
  sin : ℚ → ℚ
  exp : ℚ → ℚ
  sqrt : ℚ → ℚ
  normCdf : ℚ → ℚ
  normPpf : ℚ → ℚ
  invgaussPpf : ℚ → ℚ → ℚ → ℚ
  exponweibPpf : ℚ → ℚ → ℚ → ℚ → ℚ → ℚ
  lognormPpf : ℚ → ℚ → ℚ → ℚ
  kendallTau : List ℚ → List ℚ → ℚ
  pi : ℚ

/-- Embedding of `np.linspace(start, stop, num=n)` (endpoint included):
entry `i` is `start + i*(stop-start)/(n-1)`.  For `n = 1` the `ℚ`
convention `x / 0 = 0` makes the single entry `start`, exactly numpy's
behaviour; for `n = 0` the list is empty. -/
def linspaceQ (start stop : ℚ) (n : ℕ) : List ℚ :=
  (List.range n).map (fun i : ℕ => start + (i : ℚ) * (stop - start) / ((n : ℚ) - 1))

/-- Embedding of `np.arange(start, stop, step)` for a positive step:
`ceil((stop-start)/step)` entries `start + i*step`.  A non-positive step
gives the empty list (numpy would error; callers below guard on the
resulting length). -/
def arangeQ (start stop step : ℚ) : List ℚ :=
  if 0 < step then
    (List.range (Int.toNat (Int.ceil ((stop - start) / step)))).map
      (fun i : ℕ => start + (i : ℚ) * step)
  else []

/-- Per-return-period exceedance probability, `ESSC.py` lines 500, 602,
1007, 1134, 1260, 1388: `p_f = 1 / (365 * (24 / time_ss) * time_r)`. -/
def probOf (time_ss time_r : ℚ) : ℚ :=
  1 / (365 * (24 / time_ss) * time_r)

/-- The probability list `PCA.getSamples` feeds to `__generateData`
(line 610): the per-return probabilities with the disc-centre
probability `1` prepended (`np.hstack((1, contour_probs))`). -/
def contourProbsOf (time_ss : ℚ) (rets : List ℚ) : List ℚ :=
  1 :: rets.map (probOf time_ss)

/-- `PCA.__mu_fcn` (lines 718-735): `mu_fit = mu_p_1 * x + mu_p_2`. -/
def mu_fcn (x mu_p_1 mu_p_2 : ℚ) : ℚ := mu_p_1 * x + mu_p_2

/-- `PCA.__sigma_fcn` (lines 738-755):
`sigma_fit = sig_p[0]*x^2 + sig_p[1]*x + sig_p[2]`. -/
def sigma_fcn (sig_p : ℚ × ℚ × ℚ) (x : ℚ) : ℚ :=
  sig_p.1 * x ^ 2 + sig_p.2.1 * x + sig_p.2.2

/-- The 2x2 principal-component coefficient matrix
(`pca.components_` resp. `self.coeff`), entry `cij = coeff[i, j]`. -/
structure Coeff where
  c00 : ℚ
  c01 : ℚ
  c10 : ℚ
  c11 : ℚ
deriving DecidableEq

/-- `PCA.__generateParams` lines 387-388 applied to a components matrix
`[[a, b], [c, d]]`: `coeff = abs(pca.components_)` followed by
`coeff[1, 1] = -1.0 * coeff[1, 1]` (the fixed sign convention). -/
def coeffFromComponents (a b c d : ℚ) : Coeff :=
  ⟨|a|, |b|, |c|, -|d|⟩

/-- Forward principal-component transform of one `(Hs, T)` point,
`PCA.__generateParams` lines 390-397: row vector `[Hs, T]` times
`coeff`, then the shift added to component 2. -/
def princomp_fwd (co : Coeff) (shift hs t : ℚ) : ℚ × ℚ :=
  (hs * co.c00 + t * co.c10, hs * co.c01 + t * co.c11 + shift)

/-- `PCA.__princomp_inv` (lines 758-787) on one point: undo the shift on
component 2, then invert the rotation using row 0 of `coeff`. -/
def princomp_inv_pt (co : Coeff) (shift p1 p2 : ℚ) : ℚ × ℚ :=
  ((co.c01 * (p2 - shift) + co.c00 * p1) / (co.c01 ^ 2 + co.c00 ^ 2),
   (co.c01 * p1 - co.c00 * (p2 - shift)) / (co.c01 ^ 2 + co.c00 ^ 2))

/-- Fitted parameters of the PCA model (`PCA.__init__` line 382):
`coeff`, `shift`, `comp1_params = (mu, loc, scale)` from
`invgauss.fit(..., floc=0)`, the two `mu_param` coefficients and the
three `sigma_param` coefficients. -/
structure PcaParams where
  coeff : Coeff
  shift : ℚ
  ig_mu : ℚ
  ig_loc : ℚ
  ig_scale : ℚ
  mu1 : ℚ
  mu2 : ℚ
  s0 : ℚ
  s1 : ℚ
  s2 : ℚ
deriving DecidableEq

/-- Fitted parameters shared by the four copula variants
(`EA.__getCopulaParams`, lines 306-354): `para_dist_1 = (a, c, loc,
scale)` from `exponweib.fit(Hs, floc=0, fa=1)`, `para_dist_2 =
(mean, std)` of `log T`, and the regressed conditional coefficients.
No dependence parameter is stored here: the copula dependence
parameters are recomputed inside each `getContours` call. -/
structure CopulaParams where
  w_a : ℚ
  w_c : ℚ
  w_loc : ℚ
  w_scale : ℚ
  ln_mu : ℚ
  ln_sigma : ℚ
  mc0 : ℚ
  mc1 : ℚ
  mc2 : ℚ
  mc3 : ℚ
  sc0 : ℚ
  sc1 : ℚ
  sc2 : ℚ
deriving DecidableEq

/-- `PCA.__objfun` (lines 822-842): sum of squared residuals of the
quadratic sigma model over the bin data (`np.sum((sigma_fcn(sig_p, x) -
y_actual)**2)`, elementwise over equal-length arrays). -/
def objfun (sig_p : ℚ × ℚ × ℚ) (xs ys : List ℚ) : ℚ :=
  (List.zipWith (fun x y => (sigma_fcn sig_p x - y) ^ 2) xs ys).sum

/-- `PCA.__betafcn` (lines 789-818): each penalty variable is `0` when
its constraint holds and `rho` otherwise.  The vertex term divides by
`4*sig_p[0]`; for `sig_p[0] = 0` the `ℚ` convention yields `0` where the
floats would give an infinity (never hit by the theorems below). -/
def betafcn (sig_p : ℚ × ℚ × ℚ) (rho : ℚ) : ℚ × ℚ :=
  (if -sig_p.2.2 ≤ 0 then 0 else rho,
   if -sig_p.2.2 + sig_p.2.1 ^ 2 / (4 * sig_p.1) ≤ 0 then 0 else rho)

/-- `PCA.__objfun_penalty` (lines 844-872): least-squares objective plus
the two quadratic exterior penalties. -/
def objfun_penalty (sig_p : ℚ × ℚ × ℚ) (xs ys : List ℚ) (b1 b2 : ℚ) : ℚ :=
  objfun sig_p xs ys + b1 * (-sig_p.2.2) ^ 2 +
    b2 * (-sig_p.2.2 + sig_p.2.1 ^ 2 / (4 * sig_p.1)) ^ 2

/-- `np.amin(abs(sig_1 - sig_0))` from the loop guard of
`PCA.__sigma_fits` (line 901): the smallest componentwise absolute
change of the three parameters. -/
def minAbsDiff (p q : ℚ × ℚ × ℚ) : ℚ :=
  min |p.1 - q.1| (min |p.2.1 - q.2.1| |p.2.2 - q.2.2|)

/-- The tolerance `epsilon = 10**-5` of `PCA.__sigma_fits` (line 892). -/
def sigmaEps : ℚ := 1 / 100000

/-- The `while` loop of `PCA.__sigma_fits` (lines 901-910), fuel-indexed
because the source loop has no iteration bound (`none` models
non-termination within the given fuel).  The returned `ℕ` counts how
many loop iterations ran before exit; it is a pure observer added for
specification purposes and does not influence the iterates.  Each pass:
`sig_0 := sig_1`; penalties from `betafcn(sig_0, rho)`; a new `fmin`
solve started at `sig_0`; then `rho := 10 * rho`. -/
def sigmaLoop (fmin : ((ℚ × ℚ × ℚ) → ℚ) → (ℚ × ℚ × ℚ) → (ℚ × ℚ × ℚ))
    (xs ys : List ℚ) :
    ℕ → (ℚ × ℚ × ℚ) → (ℚ × ℚ × ℚ) → ℚ → Option ((ℚ × ℚ × ℚ) × ℕ)
  | 0, _, _, _ => none
  | fuel + 1, sig0, sig1, rho =>
    if sigmaEps < minAbsDiff sig1 sig0 ∧
        sigmaEps < |objfun sig1 xs ys - objfun sig0 xs ys| then
      let b := betafcn sig1 rho
      let sig2 := fmin (fun p => objfun_penalty p xs ys b.1 b.2) sig1
      (sigmaLoop fmin xs ys fuel sig1 sig2 (10 * rho)).map
        (fun r => (r.1, r.2 + 1))
    else some (sig1, 0)

/-- `PCA.__sigma_fits` (lines 874-912) with the unconstrained minimiser
`scipy.optimize.fmin` abstracted as the functional argument `fmin`:
initial guess `(0.1, 0.1, 0.1)`, initial penalty `rho = 1`, one solve,
then the while loop. -/
def sigma_fits (fmin : ((ℚ × ℚ × ℚ) → ℚ) → (ℚ × ℚ × ℚ) → (ℚ × ℚ × ℚ))
    (xs ys : List ℚ) (fuel : ℕ) : Option (ℚ × ℚ × ℚ) :=
  let sig0 : ℚ × ℚ × ℚ := (1 / 10, 1 / 10, 1 / 10)
  let rho : ℚ := 1
  let b := betafcn sig0 rho
  let sig1 := fmin (fun p => objfun_penalty p xs ys b.1 b.2) sig0
  (sigmaLoop fmin xs ys fuel sig0 sig1 rho).map Prod.fst

/-- Python exceptions observable from the embedded fragments. -/
inductive PyErr where
  | notImplemented
  | crash
  | outOfDomain
deriving DecidableEq

/-- `GaussianCopula.getSamples` (lines 1029-1030):
`raise NotImplementedError`. -/
def gaussianGetSamples : Except PyErr (List ℚ × List ℚ × List ℚ) :=
  .error .notImplemented

/-- `Rosenblatt.getSamples` (lines 1155-1156):
`raise NotImplementedError`. -/
def rosenblattGetSamples : Except PyErr (List ℚ × List ℚ × List ℚ) :=
  .error .notImplemented

/-- `ClaytonCopula.getSamples` (lines 1282-1283):
`raise NotImplementedError`. -/
def claytonGetSamples : Except PyErr (List ℚ × List ℚ × List ℚ) :=
  .error .notImplemented

/-- `GumbelCopula.getSamples` (lines 1433-1434):
`raise NotImplementedError`. -/
def gumbelGetSamples : Except PyErr (List ℚ × List ℚ × List ℚ) :=
  .error .notImplemented

/-- `np.argmin` over a rational list: index of the first occurrence of
the minimum (`0` for the empty list, where numpy would raise; callers
guard on emptiness). -/
def argminIdx (l : List ℚ) : ℕ :=
  (List.range l.length).foldl
    (fun best j => if l.getD j 0 < l.getD best 0 then j else best) 0

/-- `np.argmax` over a rational list: index of the first occurrence of
the maximum. -/
def argmaxIdx (l : List ℚ) : ℕ :=
  (List.range l.length).foldl
    (fun best j => if l.getD best 0 < l.getD j 0 then j else best) 0

/-- Stable insertion of a knot into a list sorted by first component
(equal keys keep their original relative order). -/
def insertPair (p : ℚ × ℚ) : List (ℚ × ℚ) → List (ℚ × ℚ)
  | [] => [p]
  | q :: tl => if q.1 ≤ p.1 then q :: insertPair p tl else p :: q :: tl

/-- Joint sort of the knot pairs by abscissa, modelling
`ms = np.argsort(x1); x = x1[ms]; y = y1[ms]` (lines 140-142).  numpy's
default quicksort is unstable, so only the multiset of pairs is
specified by the source; this uses the stable order. -/
def sortPairsByFst : List (ℚ × ℚ) → List (ℚ × ℚ)
  | [] => []
  | p :: tl => insertPair p (sortPairsByFst tl)

/-- Piecewise-linear interpolation through sorted knots, evaluated at a
query already known to be `≥` the first abscissa; `none` when the query
exceeds the last abscissa.  For duplicate knots the `ℚ` convention
`x / 0 = 0` returns the left knot's ordinate (floats would give
nan/inf). -/
def interpSegs : List (ℚ × ℚ) → ℚ → Option ℚ
  | [], _ => none
  | [p], q => if q = p.1 then some p.2 else none
  | p :: r :: tl, q =>
    if q ≤ r.1 then some (p.2 + (r.2 - p.2) * (q - p.1) / (r.1 - p.1))
    else interpSegs (r :: tl) q

/-- Evaluation of `scipy.interpolate.interp1d(x, y)` at one query with
the default `bounds_error=True`: queries strictly outside `[x[0],
x[-1]]` raise (`outOfDomain`). -/
def interpAt (pts : List (ℚ × ℚ)) (q : ℚ) : Except PyErr ℚ :=
  match pts.head? with
  | none => .error .crash
  | some p0 =>
    if q < p0.1 then .error .outOfDomain
    else
      match interpSegs pts q with
      | some v => .ok v
      | none => .error .outOfDomain

/-- `EA.getContourPoints` (lines 115-150) on a stored contour
`(tCont, hsCont)` and queries `tSample`.  Faithful to the source,
including its defect: when `np.max(w1) > np.max(w2)` the first branch
assigns `y` (line 135) but the code afterwards reads `y1` (line 142),
so Python raises `UnboundLocalError`; that path is `crash`.  Otherwise
branch 2 (`x1`, `y1` wrapped around the argmax) is sorted by `T` and
interpolated.  `crash` also models `np.max` of an empty slice and
`interp1d` on fewer than two knots. -/
def getContourPoints (tCont hsCont tSample : List ℚ) :
    Except PyErr (List ℚ) :=
  if tCont.isEmpty ∨ hsCont.isEmpty then .error .crash
  else
    let amin := argminIdx tCont
    let amax := argmaxIdx tCont
    let w1 := (hsCont.drop amin).take (amax - amin)
    let w2 := hsCont.drop amax ++ hsCont.take amin
    match w1.max?, w2.max? with
    | some m1, some m2 =>
      if m2 < m1 then .error .crash
      else
        let x1 := tCont.drop amax ++ tCont.take amin
        let y1 := w2
        let pts := sortPairsByFst (x1.zip y1)
        if pts.length < 2 then .error .crash
        else tSample.mapM (fun q => interpAt pts q)
    | _, _ => .error .crash

/-- The IFORM angle grid `theta = np.linspace(0, 2*np.pi, num=nb_steps)`
shared by every `getContours` variant (lines 502, 1009, 1136, 1262,
1390). -/
def contourTheta (P : Prims) (nb_steps : ℕ) : List ℚ :=
  linspaceQ 0 (2 * P.pi) nb_steps

/-- One point of the PCA contour (`PCA.getContours`, lines 497-523) at
angle `t` on the reliability circle of radius `beta`:
`U1 = beta*cos t`, `U2 = beta*sin t`, inverse-Gaussian quantile for
component 1, fitted `mu`/`sigma`, normal quantile for component 2
(`norm.ppf(q, loc, scale) = loc + scale*norm.ppf(q)`), inverse
principal-component transform, and the post-hoc clamp
`Hs = np.maximum(0, Hs)` (line 520). -/
def pcaContourPoint (P : Prims) (prm : PcaParams) (beta t : ℚ) : ℚ × ℚ :=
  let u1 := beta * P.cos t
  let u2 := beta * P.sin t
  let comp1 := P.invgaussPpf (P.normCdf u1) prm.ig_mu prm.ig_scale
  let muR := mu_fcn comp1 prm.mu1 prm.mu2
  let sigmaR := sigma_fcn (prm.s0, prm.s1, prm.s2) comp1
  let comp2 := muR + sigmaR * P.normPpf (P.normCdf u2)
  let hsT := princomp_inv_pt prm.coeff prm.shift comp1 comp2
  (max 0 hsT.1, hsT.2)

/-- `PCA.getContours` (lines 439-523) for one return period: the
reliability index `beta = norm.ppf(1 - p_f)`, the angle grid, and the
per-angle pipeline; returns `(Hs_Return, T_Return)`.  The source also
accepts a vector `time_r` (elementwise broadcast); the scalar case is
embedded. -/
def pcaGetContours (P : Prims) (prm : PcaParams) (time_ss time_r : ℚ)
    (nb_steps : ℕ) : List ℚ × List ℚ :=
  let beta := P.normPpf (1 - probOf time_ss time_r)
  let pts := (contourTheta P nb_steps).map (pcaContourPoint P prm beta)
  (pts.map Prod.fst, pts.map Prod.snd)

/-- `tau = stats.kendalltau(self.buoy.T, self.buoy.Hs)[0];
rho_gau = np.sin(tau*np.pi/2.)` — `GaussianCopula.getContours`, lines
1016-1017, evaluated on the buoy data current at the call. -/
def rho_gau (P : Prims) (tBuoy hsBuoy : List ℚ) : ℚ :=
  P.sin (P.kendallTau tBuoy hsBuoy * P.pi / 2)

/-- `theta_clay = (2.*tau)/(1.-tau)` — `ClaytonCopula.getContours`,
lines 1269-1270, with `tau = kendalltau(T, Hs)[0]` on the buoy data
current at the call. -/
def theta_clay (P : Prims) (tBuoy hsBuoy : List ℚ) : ℚ :=
  (2 * P.kendallTau tBuoy hsBuoy) / (1 - P.kendallTau tBuoy hsBuoy)

/-- `theta_gum = 1./(1.-tau)` — `GumbelCopula.getContours`, lines
1397-1398, with `tau = kendalltau(T, Hs)[0]` on the buoy data current at
the call. -/
def theta_gum (P : Prims) (tBuoy hsBuoy : List ℚ) : ℚ :=
  1 / (1 - P.kendallTau tBuoy hsBuoy)

/-- One point of the Gaussian-copula contour
(`GaussianCopula.getContours`, lines 1003-1027):
`comp_1 = exponweib.ppf(norm.cdf(U1), a, c, loc, scale)`,
`z2 = norm.cdf(U2*sqrt(1-rho^2) + rho*U1)`,
`comp_2 = lognorm.ppf(z2, s, loc=0, scale=exp(mu))`. -/
def gaussContourPoint (P : Prims) (cp : CopulaParams) (rho beta t : ℚ) :
    ℚ × ℚ :=
  let u1 := beta * P.cos t
  let u2 := beta * P.sin t
  let comp1 := P.exponweibPpf (P.normCdf u1) cp.w_a cp.w_c cp.w_loc cp.w_scale
  let z2 := P.normCdf (u2 * P.sqrt (1 - rho ^ 2) + rho * u1)
  let comp2 := P.lognormPpf z2 cp.ln_sigma (P.exp cp.ln_mu)
  (comp1, comp2)

/-- `GaussianCopula.getContours` (lines 951-1027) for one return
period.  `tBuoy`/`hsBuoy` are the buoy series at call time
(`self.buoy.T`, `self.buoy.Hs`); the dependence parameter `rho_gau` is
recomputed from them on every call. -/
def gaussGetContours (P : Prims) (cp : CopulaParams)
    (tBuoy hsBuoy : List ℚ) (time_ss time_r : ℚ) (nb_steps : ℕ) :
    List ℚ × List ℚ :=
  let beta := P.normPpf (1 - probOf time_ss time_r)
  let rho := rho_gau P tBuoy hsBuoy
  let pts := (contourTheta P nb_steps).map (gaussContourPoint P cp rho beta)
  (pts.map Prod.fst, pts.map Prod.snd)

/-- Dependence parameter of the Gaussian copula as the specification
states it: "rho = sin(pi*tau/2) where tau is the sample Kendall rank
correlation between T and Hs".  Written from the spec's words, to be
compared with `rho_gau` from the source. -/
def spec_rho_gau (P : Prims) (tBuoy hsBuoy : List ℚ) : ℚ :=
  P.sin (P.pi * P.kendallTau tBuoy hsBuoy / 2)

/-- Dependence parameter of the Clayton copula as the specification
states it: "theta_c = 2*tau/(1-tau)".  Written from the spec's words. -/
def spec_theta_clay (P : Prims) (tBuoy hsBuoy : List ℚ) : ℚ :=
  2 * P.kendallTau tBuoy hsBuoy / (1 - P.kendallTau tBuoy hsBuoy)

/-- Dependence parameter of the Gumbel copula as the specification
states it: "theta_g = 1/(1-tau)".  Written from the spec's words. -/
def spec_theta_gum (P : Prims) (tBuoy hsBuoy : List ℚ) : ℚ :=
  1 / (1 - P.kendallTau tBuoy hsBuoy)

/-- Sampling bounds of one annulus, `PCA.__generateData` lines 660-670:
`r = Rho_zeroline - beta_lines[i+1]`; if any entry is negative the
bounds come from the first and last index with `r < -0.01`
(`none` models the `ValueError` numpy raises when `any(r < 0)` holds but
no entry is below `-0.01`, making `np.where` empty); otherwise the full
circle `(0, 2*pi)`.  `twoPi` is the caller's value of `2*np.pi`. -/
def alphaBounds (rhoZ thetaZ : List ℚ) (twoPi beta1 : ℚ) :
    Option (ℚ × ℚ) :=
  let r := rhoZ.map (fun x => x - beta1)
  if r.any (fun x => decide (x < 0)) then
    let idxs := (List.range r.length).filter
      (fun j => decide (r.getD j 0 < -(1 / 100)))
    match idxs.head?, idxs.getLast? with
    | some left, some right =>
      some (thetaZ.getD left 0, thetaZ.getD right 0 - twoPi)
    | _, _ => none
  else some (0, twoPi)

/-- Angular coverage fraction of one annulus:
`Angular_dist[i] / (2*pi)` with `Angular_dist[i] =
sum(abs(Alpha_bounds[i]))` (lines 672-674); `0` when the bounds
computation itself errors.  It depends on the zero line and the annulus
radius only — not on `num_contour_points` or the random draws. -/
def covFrac (rhoZ thetaZ : List ℚ) (twoPi beta1 : ℚ) : ℚ :=
  match alphaBounds rhoZ thetaZ twoPi beta1 with
  | some bd => (|bd.1| + |bd.2|) / twoPi
  | none => 0

/-- Work of one pass of the interval loop of `PCA.__generateData`
(lines 659-693) for annulus `i`: sampling bounds, the `Alpha` row
`np.arange(min(bounds), max(bounds) + 0.1, Angular_dist/m)` (whose
length must be `m + 1`, or the numpy row assignment of line 677 fails:
`none`), the per-point weight
`(contour_probs[i] - contour_probs[i+1]) * Angular_ratio[i] / m`, and
the `m` sampled angles and radii.  `rng n` stands for the `n`-th value
drawn from the seeded `np.random` stream; the draws happen radius-first
in the source's order, hence the index `2*(i*m+j)` for the radius and
`2*(i*m+j)+1` for the angle.  Returns `(angles, radii, weights)`. -/
def intervalChunk (rhoZ thetaZ : List ℚ) (twoPi : ℚ) (m : ℕ)
    (betaL probsL : List ℚ) (rng : ℕ → ℚ) (i : ℕ) :
    Option (List ℚ × List ℚ × List ℚ) := do
  let bd ← alphaBounds rhoZ thetaZ twoPi (betaL.getD (i + 1) 0)
  let dist := |bd.1| + |bd.2|
  let alphaRow := arangeQ (min bd.1 bd.2) (max bd.1 bd.2 + 1 / 10)
    (dist / (m : ℚ))
  if alphaRow.length = m + 1 then
    let w := (probsL.getD i 0 - probsL.getD (i + 1) 0) * (dist / twoPi) /
      (m : ℚ)
    let alphas := (List.range m).map (fun j =>
      alphaRow.getD j 0 +
        rng (2 * (i * m + j) + 1) * (alphaRow.getD (j + 1) 0 - alphaRow.getD j 0))
    let radii := (List.range m).map (fun j =>
      betaL.getD i 0 +
        rng (2 * (i * m + j)) * (betaL.getD (i + 1) 0 - betaL.getD i 0))
    some (alphas, radii, List.replicate m w)
  else none

/-- The interval loop `for i in range(len(beta_lines) - 1)` of
`PCA.__generateData`, assembled functionally: chunk `i` of the flat
output arrays (which the source fills by index assignment at offsets
`i*m..i*m+m-1`) in loop order. -/
def buildChunks (f : ℕ → Option (List ℚ × List ℚ × List ℚ)) :
    ℕ → Option (List (List ℚ × List ℚ × List ℚ))
  | 0 => some []
  | n + 1 => do
    let cs ← buildChunks f n
    let c ← f n
    some (cs ++ [c])

/-- `PCA.__generateData` (lines 643-695): for each annulus the bounds,
weights and `m` random draws; the flat arrays `Sample_alpha`,
`Sample_beta`, `Weight_points` (each of length
`(len(beta_lines)-1)*m`) are the concatenations of the per-annulus
chunks.  Index accesses `beta_lines[i+1]`, `contour_probs[i+1]` are
embedded with `getD` default `0`; the caller (`getSamples`) always
passes equal-length lists so the defaults are never consulted there. -/
def generateData (betaL rhoZ thetaZ : List ℚ) (m : ℕ) (probsL : List ℚ)
    (rng : ℕ → ℚ) (twoPi : ℚ) :
    Option (List ℚ × List ℚ × List ℚ) :=
  (buildChunks (intervalChunk rhoZ thetaZ twoPi m betaL probsL rng)
      (betaL.length - 1)).map
    (fun cs =>
      ((cs.map (fun c => c.1)).flatten,
       (cs.map (fun c => c.2.1)).flatten,
       (cs.map (fun c => c.2.2)).flatten))

/-- The reliability radii `PCA.getSamples` builds (lines 602-606):
`beta_lines = np.hstack((0, norm.ppf(1 - contour_probs)))`. -/
def getSamplesBetaLines (P : Prims) (time_ss : ℚ) (rets : List ℚ) :
    List ℚ :=
  0 :: (rets.map (probOf time_ss)).map (fun p => P.normPpf (1 - p))

/-- The polar-sampling core of `PCA.getSamples` (lines 602-633): the
probability and radius lists with their prepended centre values, fed to
`__generateData`.  `rhoZ`/`thetaZ` are the polar coordinates of the
masked `Hs = 0` zero line (lines 582-629), which the source computes
from the fitted model through `invgauss.cdf`, `norm.cdf`, `norm.ppf`,
`arctan2` and `sqrt`; they enter `__generateData` as plain arrays and
are taken as parameters here, so every theorem below holds for whatever
values that pipeline produces. -/
def getSamplesCore (P : Prims) (twoPi time_ss : ℚ)
    (rets rhoZ thetaZ : List ℚ) (m : ℕ) (rng : ℕ → ℚ) :
    Option (List ℚ × List ℚ × List ℚ) :=
  generateData (getSamplesBetaLines P time_ss rets) rhoZ thetaZ m
    (contourProbsOf time_ss rets) rng twoPi

/-- One point of `PCA.__transformSamples` (lines 697-715): polar sample
`(alpha, radius)` to `(U1, U2) = (radius*cos alpha, radius*sin alpha)`,
then the same quantile pipeline as the contour (without the `Hs` clamp,
which `__transformSamples` does not apply). -/
def pcaSamplePoint (P : Prims) (prm : PcaParams) (ab : ℚ × ℚ) : ℚ × ℚ :=
  let u1 := ab.2 * P.cos ab.1
  let u2 := ab.2 * P.sin ab.1
  let comp1 := P.invgaussPpf (P.normCdf u1) prm.ig_mu prm.ig_scale
  let muS := mu_fcn comp1 prm.mu1 prm.mu2
  let sigmaS := sigma_fcn (prm.s0, prm.s1, prm.s2) comp1
  let comp2 := muS + sigmaS * P.normPpf (P.normCdf u2)
  princomp_inv_pt prm.coeff prm.shift comp1 comp2

/-- `PCA.__transformSamples` over the flat sample arrays (elementwise in
the source; embedded as a map over the zipped pairs). -/
def transformSamples (P : Prims) (prm : PcaParams)
    (alphas radii : List ℚ) : List ℚ × List ℚ :=
  let pts := (alphas.zip radii).map (pcaSamplePoint P prm)
  (pts.map Prod.fst, pts.map Prod.snd)

/-- `PCA.getSamples` (lines 525-641) downstream of the zero-line
computation: the polar sampling core followed by
`__transformSamples`; returns `(Hs_Sample, T_Sample, Weight_points)`. -/
def getSamplesModel (P : Prims) (prm : PcaParams) (twoPi time_ss : ℚ)
    (rets rhoZ thetaZ : List ℚ) (m : ℕ) (rng : ℕ → ℚ) :
    Option (List ℚ × List ℚ × List ℚ) :=
  match getSamplesCore P twoPi time_ss rets rhoZ thetaZ m rng with
  | none => none
  | some (alphas, radii, w) =>
    let hsT := transformSamples P prm alphas radii
    some (hsT.1, hsT.2, w)

/-- A concrete primitive instance used by the witness and
counterexample instantiations (the theorems hold for every `Prims`). -/
def trivPrims : Prims where
  cos := fun _ => 1
  sin := fun _ => 0
  exp := fun _ => 1
  sqrt := fun _ => 0
  normCdf := fun q => q
  normPpf := fun _ => 1
  invgaussPpf := fun q _ _ => q
  exponweibPpf := fun _ _ _ _ _ => 0
  lognormPpf := fun q _ _ => q
  kendallTau := fun _ _ => 0
  pi := 22 / 7

/-- Concrete PCA parameters for witness instantiations. -/
def prm0 : PcaParams where
  coeff := ⟨1, 0, 0, 1⟩
  shift := 0
  ig_mu := 0
  ig_loc := 0
  ig_scale := 0
  mu1 := 0
  mu2 := 0
  s0 := 0
  s1 := 0
  s2 := 0

/-- Concrete copula parameters for witness instantiations. -/
def cp0 : CopulaParams where
  w_a := 1
  w_c := 1
  w_loc := 0
  w_scale := 1
  ln_mu := 0
  ln_sigma := 1
  mc0 := 0
  mc1 := 0
  mc2 := 0
  mc3 := 0
  sc0 := 0
  sc1 := 0
  sc2 := 0

/-- From orthonormality of the rows of the components matrix, the
squared entries of the two rows coincide crosswise. -/
theorem components_cross_sq {a b c d : ℚ} (h1 : a ^ 2 + b ^ 2 = 1)
    (h2 : c ^ 2 + d ^ 2 = 1) (h3 : a * c + b * d = 0) :
    c ^ 2 = b ^ 2 ∧ d ^ 2 = a ^ 2 := by
  have e1 : a ^ 2 * c ^ 2 = b ^ 2 * d ^ 2 := by
    linear_combination (a * c - b * d) * h3
  have ecb : c ^ 2 = b ^ 2 := by
    linear_combination (-(c ^ 2)) * h1 + b ^ 2 * h2 + e1
  exact ⟨ecb, by linear_combination h2 - ecb - h1⟩

/-- Absolute-value form of `components_cross_sq`. -/
theorem components_cross_abs {a b c d : ℚ} (h1 : a ^ 2 + b ^ 2 = 1)
    (h2 : c ^ 2 + d ^ 2 = 1) (h3 : a * c + b * d = 0) :
    |c| = |b| ∧ |d| = |a| := by
  obtain ⟨ecb, eda⟩ := components_cross_sq h1 h2 h3
  constructor
  · rcases mul_eq_zero.mp (show (c - b) * (c + b) = 0 by linear_combination ecb)
      with h | h
    · exact abs_eq_abs.mpr (Or.inl (by linarith))
    · exact abs_eq_abs.mpr (Or.inr (by linarith))
  · rcases mul_eq_zero.mp (show (d - a) * (d + a) = 0 by linear_combination eda)
      with h | h
    · exact abs_eq_abs.mpr (Or.inl (by linarith))
    · exact abs_eq_abs.mpr (Or.inr (by linarith))

/-- C9: for every valid sample — i.e. whatever orthonormal components
matrix `[[a, b], [c, d]]` the sklearn PCA fit returns, in either input
order of the two variables — the `coeff` matrix built by
`PCA.__generateParams` (absolute values with entry `[1,1]`
sign-flipped) is orthonormal: both rows have unit norm and are mutually
orthogonal; and the fixed sign convention holds: entries `[0,0]`,
`[0,1]`, `[1,0]` are non-negative and entry `[1,1]` is non-positive. -/
theorem c9_coeff_orthonormal (a b c d : ℚ) (h1 : a ^ 2 + b ^ 2 = 1)
    (h2 : c ^ 2 + d ^ 2 = 1) (h3 : a * c + b * d = 0) :
    (coeffFromComponents a b c d).c00 ^ 2 +
        (coeffFromComponents a b c d).c01 ^ 2 = 1 ∧
    (coeffFromComponents a b c d).c10 ^ 2 +
        (coeffFromComponents a b c d).c11 ^ 2 = 1 ∧
    (coeffFromComponents a b c d).c00 * (coeffFromComponents a b c d).c10 +
        (coeffFromComponents a b c d).c01 * (coeffFromComponents a b c d).c11 = 0 ∧
    0 ≤ (coeffFromComponents a b c d).c00 ∧
    0 ≤ (coeffFromComponents a b c d).c01 ∧
    0 ≤ (coeffFromComponents a b c d).c10 ∧
    (coeffFromComponents a b c d).c11 ≤ 0 := by
  obtain ⟨habsc, habsd⟩ := components_cross_abs h1 h2 h3
  refine ⟨?_, ?_, ?_, abs_nonneg a, abs_nonneg b, abs_nonneg c,
    neg_nonpos.mpr (abs_nonneg d)⟩
  · simpa [coeffFromComponents, sq_abs] using h1
  · simpa [coeffFromComponents, sq_abs] using h2
  · simp only [coeffFromComponents]
    rw [habsc, habsd]
    ring

/-- C9 witness at the orthonormal components matrix
`[[3/5, 4/5], [-4/5, 3/5]]`. -/
theorem c9_coeff_orthonormal_witness :
    ((3 / 5 : ℚ) ^ 2 + (4 / 5) ^ 2 = 1) ∧
    ((-4 / 5 : ℚ) ^ 2 + (3 / 5) ^ 2 = 1) ∧
    ((3 / 5 : ℚ) * (-4 / 5) + (4 / 5) * (3 / 5) = 0) ∧
    ((coeffFromComponents (3 / 5) (4 / 5) (-4 / 5) (3 / 5)).c00 ^ 2 +
        (coeffFromComponents (3 / 5) (4 / 5) (-4 / 5) (3 / 5)).c01 ^ 2 = 1 ∧
      (coeffFromComponents (3 / 5) (4 / 5) (-4 / 5) (3 / 5)).c10 ^ 2 +
        (coeffFromComponents (3 / 5) (4 / 5) (-4 / 5) (3 / 5)).c11 ^ 2 = 1 ∧
      (coeffFromComponents (3 / 5) (4 / 5) (-4 / 5) (3 / 5)).c00 *
          (coeffFromComponents (3 / 5) (4 / 5) (-4 / 5) (3 / 5)).c10 +
        (coeffFromComponents (3 / 5) (4 / 5) (-4 / 5) (3 / 5)).c01 *
          (coeffFromComponents (3 / 5) (4 / 5) (-4 / 5) (3 / 5)).c11 = 0 ∧
      0 ≤ (coeffFromComponents (3 / 5) (4 / 5) (-4 / 5) (3 / 5)).c00 ∧
      0 ≤ (coeffFromComponents (3 / 5) (4 / 5) (-4 / 5) (3 / 5)).c01 ∧
      0 ≤ (coeffFromComponents (3 / 5) (4 / 5) (-4 / 5) (3 / 5)).c10 ∧
      (coeffFromComponents (3 / 5) (4 / 5) (-4 / 5) (3 / 5)).c11 ≤ 0) :=
  ⟨by norm_num, by norm_num, by norm_num,
    c9_coeff_orthonormal (3 / 5) (4 / 5) (-4 / 5) (3 / 5) (by norm_num)
      (by norm_num) (by norm_num)⟩

/-- C8: for any `coeff`/`shift` the PCA fitter can produce (the sign
convention applied to an orthonormal sklearn components matrix),
applying `PCA.__princomp_inv` (undo the shift, then undo the rotation)
to the forward-rotated image of an arbitrary `(Hs, T)` point reproduces
that point — exactly, over `ℚ`, hence within numerical tolerance in
floats. -/
theorem c8_princomp_roundtrip (a b c d shift hs t : ℚ)
    (h1 : a ^ 2 + b ^ 2 = 1) (h2 : c ^ 2 + d ^ 2 = 1)
    (h3 : a * c + b * d = 0) :
    princomp_inv_pt (coeffFromComponents a b c d) shift
      (princomp_fwd (coeffFromComponents a b c d) shift hs t).1
      (princomp_fwd (coeffFromComponents a b c d) shift hs t).2 = (hs, t) := by
  obtain ⟨habsc, habsd⟩ := components_cross_abs h1 h2 h3
  have hden : |b| ^ 2 + |a| ^ 2 = 1 := by rw [sq_abs, sq_abs]; linarith
  simp only [princomp_inv_pt, princomp_fwd, coeffFromComponents]
  rw [habsc, habsd, hden, Prod.mk.injEq]
  constructor
  · rw [div_one]; linear_combination hs * hden
  · rw [div_one]; linear_combination t * hden

/-- C8 witness: components `[[3/5, 4/5], [-4/5, 3/5]]`, shift `2`,
point `(Hs, T) = (1, 2)`. -/
theorem c8_princomp_roundtrip_witness :
    ((3 / 5 : ℚ) ^ 2 + (4 / 5) ^ 2 = 1) ∧
    ((-4 / 5 : ℚ) ^ 2 + (3 / 5) ^ 2 = 1) ∧
    ((3 / 5 : ℚ) * (-4 / 5) + (4 / 5) * (3 / 5) = 0) ∧
    princomp_inv_pt (coeffFromComponents (3 / 5) (4 / 5) (-4 / 5) (3 / 5)) 2
      (princomp_fwd (coeffFromComponents (3 / 5) (4 / 5) (-4 / 5) (3 / 5)) 2 1 2).1
      (princomp_fwd (coeffFromComponents (3 / 5) (4 / 5) (-4 / 5) (3 / 5)) 2 1 2).2 =
      (1, 2) :=
  ⟨by norm_num, by norm_num, by norm_num,
    c8_princomp_roundtrip (3 / 5) (4 / 5) (-4 / 5) (3 / 5) 2 1 2 (by norm_num)
      (by norm_num) (by norm_num)⟩

/-- C7: every copula variant's `getSamples` (Gaussian, Rosenblatt,
Clayton, Gumbel) raises `NotImplementedError` — an error value, never a
`WeightedSampleSet`; only the PCA variant implements sampling. -/
theorem c7_copula_getSamples_unsupported :
    gaussianGetSamples = .error .notImplemented ∧
    rosenblattGetSamples = .error .notImplemented ∧
    claytonGetSamples = .error .notImplemented ∧
    gumbelGetSamples = .error .notImplemented :=
  ⟨rfl, rfl, rfl, rfl⟩

/-- C5: the dependence parameters the three tau-based copula
`getContours` implementations compute from the buoy data current at the
call (`rho_gau`, `theta_clay`, `theta_gum`, each applied to the
call-time `self.buoy.T`, `self.buoy.Hs`; the fitted `CopulaParams`
store no dependence parameter) agree with the formulas the
specification states: `rho = sin(pi*tau/2)`, `theta_c = 2*tau/(1-tau)`,
`theta_g = 1/(1-tau)` with `tau` the Kendall rank correlation of
`(T, Hs)`. -/
theorem c5_dependence_params (P : Prims) (tBuoy hsBuoy : List ℚ) :
    rho_gau P tBuoy hsBuoy = spec_rho_gau P tBuoy hsBuoy ∧
    theta_clay P tBuoy hsBuoy = spec_theta_clay P tBuoy hsBuoy ∧
    theta_gum P tBuoy hsBuoy = spec_theta_gum P tBuoy hsBuoy := by
  refine ⟨?_, rfl, rfl⟩
  unfold rho_gau spec_rho_gau
  exact congrArg P.sin (by ring)

/-- C2: `EA.getContourPoints` crashes on the contour
`T = [0, 1, 2, 3]`, `Hs = [5, 9, 1, 1]` (query `3/2`): here
`np.max(w1) = 9 > np.max(w2) = 1`, so the source selects its first
branch, which assigns `y` (line 135) but never `y1`, and the subsequent
read `y = y1[ms]` (line 142) raises `UnboundLocalError` instead of
interpolating on that branch as the claim describes. -/
theorem c2_getContourPoints_bug :
    getContourPoints [0, 1, 2, 3] [5, 9, 1, 1] [3 / 2] = .error .crash :=
  rfl

/-- Unfolding equation for one step of the `__sigma_fits` while loop. -/
theorem sigmaLoop_succ
    (fmin : ((ℚ × ℚ × ℚ) → ℚ) → (ℚ × ℚ × ℚ) → (ℚ × ℚ × ℚ))
    (xs ys : List ℚ) (fuel : ℕ) (sig0 sig1 : ℚ × ℚ × ℚ) (rho : ℚ) :
    sigmaLoop fmin xs ys (fuel + 1) sig0 sig1 rho =
      if sigmaEps < minAbsDiff sig1 sig0 ∧
          sigmaEps < |objfun sig1 xs ys - objfun sig0 xs ys| then
        (sigmaLoop fmin xs ys fuel sig1
          (fmin (fun p => objfun_penalty p xs ys (betafcn sig1 rho).1
            (betafcn sig1 rho).2) sig1) (10 * rho)).map
          (fun r => (r.1, r.2 + 1))
      else some (sig1, 0) :=
  rfl

/-- C3 counterexample: the claim says the fit "terminates exactly when
both the successive parameter vectors and the successive objective
values change by less than 1e-5".  Concrete run refuting it: bin data
`x = [1]`, `y = [0]`, with a minimiser returning `(0.1, 5, 7)` from the
start `(0.1, 0.1, 0.1)`.  The objective changes by
`14641/100 - 9/100 = 146.32`, far above `1e-5`, yet the loop terminates
immediately (returning that iterate) because the source guard is
`np.amin(abs(sig_1 - sig_0)) > eps AND |obj change| > eps`, and the
smallest componentwise parameter change here is `0`. -/
theorem c3_claim_counterexample :
    sigma_fits (fun _ _ => ((1 : ℚ) / 10, 5, 7)) [1] [0] 5 =
        some (1 / 10, 5, 7) ∧
    sigmaEps <
      |objfun ((1 : ℚ) / 10, 5, 7) [1] [0] -
        objfun ((1 : ℚ) / 10, 1 / 10, 1 / 10) [1] [0]| := by
  constructor
  · show (sigmaLoop _ [1] [0] 5 (1 / 10, 1 / 10, 1 / 10)
      ((1 : ℚ) / 10, 5, 7) 1).map Prod.fst = some (1 / 10, 5, 7)
    rw [show (5 : ℕ) = 4 + 1 from rfl, sigmaLoop_succ, if_neg, Option.map_some']
    intro h
    have h1 := h.1
    rw [show minAbsDiff ((1 : ℚ) / 10, 5, 7) (1 / 10, 1 / 10, 1 / 10) = 0 by
      norm_num [minAbsDiff]] at h1
    norm_num [sigmaEps] at h1
  · rw [abs_of_pos (by norm_num [objfun, sigma_fcn])]
    norm_num [objfun, sigma_fcn, sigmaEps]

/-- C3 amended: the outer loop of `PCA.__sigma_fits` exits, returning
the current iterate with no further minimisation, exactly when the
MINIMUM componentwise change between successive parameter vectors is
`≤ 1e-5` OR the successive objective values change by `≤ 1e-5` (the
source continues only while both exceed the tolerance); while it
continues, each iteration starts the unconstrained minimisation from
the previous iterate, with penalty terms built from the current weight,
and then multiplies the penalty weight by 10. -/
theorem c3_termination_amended
    (fmin : ((ℚ × ℚ × ℚ) → ℚ) → (ℚ × ℚ × ℚ) → (ℚ × ℚ × ℚ))
    (xs ys : List ℚ) (fuel : ℕ) (sig0 sig1 : ℚ × ℚ × ℚ) (rho : ℚ) :
    (∀ r, sigmaLoop fmin xs ys (fuel + 1) sig0 sig1 rho = some (r, 0) ↔
      (r = sig1 ∧ ¬(sigmaEps < minAbsDiff sig1 sig0 ∧
        sigmaEps < |objfun sig1 xs ys - objfun sig0 xs ys|))) ∧
    ((sigmaEps < minAbsDiff sig1 sig0 ∧
        sigmaEps < |objfun sig1 xs ys - objfun sig0 xs ys|) →
      sigmaLoop fmin xs ys (fuel + 1) sig0 sig1 rho =
        (sigmaLoop fmin xs ys fuel sig1
          (fmin (fun p => objfun_penalty p xs ys (betafcn sig1 rho).1
            (betafcn sig1 rho).2) sig1) (10 * rho)).map
          (fun r => (r.1, r.2 + 1))) := by
  by_cases hc : sigmaEps < minAbsDiff sig1 sig0 ∧
      sigmaEps < |objfun sig1 xs ys - objfun sig0 xs ys|
  · refine ⟨fun r => ?_, fun _ => by rw [sigmaLoop_succ, if_pos hc]⟩
    rw [sigmaLoop_succ, if_pos hc]
    constructor
    · intro h
      rw [Option.map_eq_some'] at h
      obtain ⟨⟨s, n⟩, -, heq⟩ := h
      exact absurd (congrArg Prod.snd heq) (by simp)
    · rintro ⟨-, hn⟩
      exact absurd hc hn
  · refine ⟨fun r => ?_, fun h => absurd h hc⟩
    rw [sigmaLoop_succ, if_neg hc]
    constructor
    · intro h
      exact ⟨((Prod.mk.injEq _ _ _ _).mp (Option.some.inj h)).1.symm, hc⟩
    · rintro ⟨rfl, -⟩
      rfl

/-- C3 witness: at fuel 3 from the state `sig0 = sig1 = (0, 0, 0)` the
loop returns the current iterate with zero further iterations, because
the minimum componentwise parameter change is `0 ≤ 1e-5`. -/
theorem c3_termination_witness :
    sigmaLoop (fun _ _ => ((0 : ℚ), 0, 0)) [] [] 3 (0, 0, 0) (0, 0, 0) 1 =
      some ((0, 0, 0), 0) :=
  ((c3_termination_amended (fun _ _ => ((0 : ℚ), 0, 0)) [] [] 2 (0, 0, 0)
      (0, 0, 0) 1).1 (0, 0, 0)).mpr
    ⟨rfl, by norm_num [minAbsDiff, sigmaEps]⟩

/-- The embedded `np.linspace` starts at `start` whenever it is
nonempty. -/
theorem linspaceQ_head (s e : ℚ) (n : ℕ) (hn : 1 ≤ n) :
    (linspaceQ s e n).head? = some s := by
  obtain ⟨m, rfl⟩ := Nat.exists_eq_add_of_le hn
  rw [linspaceQ, show 1 + m = m + 1 from Nat.add_comm 1 m,
    List.range_succ_eq_map, List.map_cons, List.head?_cons]
  norm_num

/-- The embedded `np.linspace` ends exactly at `stop` whenever it has
at least two entries. -/
theorem linspaceQ_getLast (s e : ℚ) (n : ℕ) (hn : 2 ≤ n) :
    (linspaceQ s e n).getLast? = some e := by
  obtain ⟨m, rfl⟩ := Nat.exists_eq_add_of_le hn
  have h1 : (2 + m : ℕ) = (1 + m) + 1 := by omega
  rw [linspaceQ, h1, List.range_succ, List.map_append, List.map_singleton,
    List.getLast?_concat]
  have hm : ((1 + m : ℕ) : ℚ) ≠ 0 := by
    push_cast
    positivity
  have harg : (((1 + m) + 1 : ℕ) : ℚ) - 1 = ((1 + m : ℕ) : ℚ) := by
    push_cast
    ring
  rw [harg, mul_div_cancel_left₀ _ hm]
  exact congrArg some (by ring)

/-- The PCA contour point depends on the angle only through
`cos`/`sin`, so angles `0` and `2*pi` give the same point. -/
theorem pcaContourPoint_closed (P : Prims) (prm : PcaParams) (beta : ℚ)
    (hcos : P.cos 0 = P.cos (2 * P.pi)) (hsin : P.sin 0 = P.sin (2 * P.pi)) :
    pcaContourPoint P prm beta 0 = pcaContourPoint P prm beta (2 * P.pi) := by
  unfold pcaContourPoint
  rw [hcos, hsin]

/-- C4 amended: for every model and every `getContours` call, every
`Hs` value of the PCA contour is `≥ 0` (clamped post-hoc), every `Hs`
value of the Gaussian-copula contour is `≥ 0` whenever the Weibull
quantile primitive is non-negative (scipy's `exponweib.ppf` with
`loc = 0` is), and for `nb_steps ≥ 2` the theta grid runs exactly from
`0` to `2*pi` and the PCA contour closes (first point equals last
point, given only the periodicity `cos 0 = cos 2pi`, `sin 0 = sin 2pi`
of the trigonometric primitives).  For `nb_steps = 1` the grid is the
single point `0` and does not contain `2*pi`
(see the counterexample). -/
theorem c4_contour_props_amended (P : Prims) (prm : PcaParams)
    (cp : CopulaParams) (tBuoy hsBuoy : List ℚ) (tss tr : ℚ) (n : ℕ)
    (hn : 2 ≤ n)
    (hcos : P.cos 0 = P.cos (2 * P.pi)) (hsin : P.sin 0 = P.sin (2 * P.pi))
    (hwb : ∀ q, 0 ≤ P.exponweibPpf q cp.w_a cp.w_c cp.w_loc cp.w_scale) :
    (∀ h ∈ (pcaGetContours P prm tss tr n).1, 0 ≤ h) ∧
    (∀ h ∈ (gaussGetContours P cp tBuoy hsBuoy tss tr n).1, 0 ≤ h) ∧
    (contourTheta P n).head? = some 0 ∧
    (contourTheta P n).getLast? = some (2 * P.pi) ∧
    (pcaGetContours P prm tss tr n).1.head? =
      (pcaGetContours P prm tss tr n).1.getLast? ∧
    (pcaGetContours P prm tss tr n).2.head? =
      (pcaGetContours P prm tss tr n).2.getLast? := by
  have hhead : (contourTheta P n).head? = some 0 :=
    linspaceQ_head 0 (2 * P.pi) n (le_trans (by norm_num) hn)
  have hlast : (contourTheta P n).getLast? = some (2 * P.pi) :=
    linspaceQ_getLast 0 (2 * P.pi) n hn
  have hclosed := pcaContourPoint_closed P prm
    (P.normPpf (1 - probOf tss tr)) hcos hsin
  refine ⟨?_, ?_, hhead, hlast, ?_, ?_⟩
  · intro h hmem
    rcases List.mem_map.mp hmem with ⟨pt, hpt, rfl⟩
    rcases List.mem_map.mp hpt with ⟨t, -, rfl⟩
    exact le_max_left 0 _
  · intro h hmem
    rcases List.mem_map.mp hmem with ⟨pt, hpt, rfl⟩
    rcases List.mem_map.mp hpt with ⟨t, -, rfl⟩
    exact hwb _
  · have hfst : (pcaGetContours P prm tss tr n).1 =
        ((contourTheta P n).map
          (pcaContourPoint P prm (P.normPpf (1 - probOf tss tr)))).map
          Prod.fst := rfl
    rw [hfst, List.head?_map, List.head?_map, hhead, List.getLast?_map,
      List.getLast?_map, hlast, Option.map_some', Option.map_some',
      Option.map_some', Option.map_some', hclosed]
  · have hsnd : (pcaGetContours P prm tss tr n).2 =
        ((contourTheta P n).map
          (pcaContourPoint P prm (P.normPpf (1 - probOf tss tr)))).map
          Prod.snd := rfl
    rw [hsnd, List.head?_map, List.head?_map, hhead, List.getLast?_map,
      List.getLast?_map, hlast, Option.map_some', Option.map_some',
      Option.map_some', Option.map_some', hclosed]

/-- C4 counterexample to "the theta grid always includes both endpoints
0 and 2*pi": with `nb_steps = 1` the grid `np.linspace(0, 2*pi, num=1)`
is the single point `[0]` and `2*pi` is not in it (here at the
stand-in value `pi = 22/7`; numpy behaves identically for any positive
stop). -/
theorem c4_claim_counterexample :
    contourTheta trivPrims 1 = [0] ∧
    (2 * trivPrims.pi) ∉ contourTheta trivPrims 1 := by
  have h : contourTheta trivPrims 1 = [0] := by
    show linspaceQ 0 (2 * trivPrims.pi) 1 = [0]
    rw [linspaceQ, show List.range 1 = [0] from rfl, List.map_singleton]
    norm_num
  refine ⟨h, ?_⟩
  rw [h]
  intro hmem
  rcases List.mem_singleton.mp hmem with heq
  norm_num [trivPrims] at heq

/-- C4 witness at `trivPrims`, `prm0`, `cp0`, `nb_steps = 3`. -/
theorem c4_contour_props_witness :
    ((2 : ℕ) ≤ 3) ∧
    trivPrims.cos 0 = trivPrims.cos (2 * trivPrims.pi) ∧
    trivPrims.sin 0 = trivPrims.sin (2 * trivPrims.pi) ∧
    (∀ q, 0 ≤ trivPrims.exponweibPpf q cp0.w_a cp0.w_c cp0.w_loc cp0.w_scale) ∧
    ((∀ h ∈ (pcaGetContours trivPrims prm0 1 1 3).1, 0 ≤ h) ∧
      (∀ h ∈ (gaussGetContours trivPrims cp0 [] [] 1 1 3).1, 0 ≤ h) ∧
      (contourTheta trivPrims 3).head? = some 0 ∧
      (contourTheta trivPrims 3).getLast? = some (2 * trivPrims.pi) ∧
      (pcaGetContours trivPrims prm0 1 1 3).1.head? =
        (pcaGetContours trivPrims prm0 1 1 3).1.getLast? ∧
      (pcaGetContours trivPrims prm0 1 1 3).2.head? =
        (pcaGetContours trivPrims prm0 1 1 3).2.getLast?) :=
  ⟨by norm_num, rfl, rfl, fun q => le_refl 0,
    c4_contour_props_amended trivPrims prm0 cp0 [] [] 1 1 3 (by norm_num)
      rfl rfl (fun q => le_refl 0)⟩

/-- `getD` of a replicated list below its length. -/
theorem getD_replicate_lt {n i : ℕ} (x d : ℚ) (h : i < n) :
    (List.replicate n x).getD i d = x := by
  rw [List.getD_eq_getElem?_getD, List.getElem?_replicate, if_pos h]
  rfl

/-- `getD` at the index just past a prepended head equals `getLastD`. -/
theorem getD_cons_length (ps : List ℚ) (a : ℚ) :
    (a :: ps).getD ps.length 0 = ps.getLastD a := by
  induction ps generalizing a with
  | nil => rfl
  | cons q tl ih =>
    rw [List.getLastD_cons, show (q :: tl).length = tl.length + 1 from rfl,
      List.getD_cons_succ]
    exact ih q

/-- Successful interval-loop passes: the chunk list collects, in order,
one successful `intervalChunk` result per annulus. -/
theorem buildChunks_some {f : ℕ → Option (List ℚ × List ℚ × List ℚ)} :
    ∀ {n : ℕ} {cs}, buildChunks f n = some cs →
      cs.length = n ∧ ∀ i < n, f i = some (cs.getD i ([], [], [])) := by
  intro n
  induction n with
  | zero =>
    intro cs h
    obtain rfl := Option.some.inj h.symm
    exact ⟨rfl, fun i hi => absurd hi (Nat.not_lt_zero i)⟩
  | succ n ih =>
    intro cs h
    rw [buildChunks] at h
    simp only [Option.bind_eq_bind'] at h
    rw [Option.bind_eq_some] at h
    obtain ⟨cs', hcs', h⟩ := h
    rw [Option.bind_eq_some] at h
    obtain ⟨c, hc, h⟩ := h
    obtain rfl := Option.some.inj h.symm
    obtain ⟨hlen, hall⟩ := ih hcs'
    constructor
    · simp [hlen]
    · intro i hi
      rcases Nat.lt_succ_iff_lt_or_eq.mp hi with hi' | rfl
    
      · rw [List.getD_append _ _ _ _ (by rw [hlen]; exact hi')]
        exact hall i hi'
      · have hgd : (cs' ++ [c]).getD i ([], [], []) = c := by
          rw [List.getD_append_right _ _ _ _ (le_of_eq hlen), hlen,
            Nat.sub_self]
          rfl
        rw [hgd]
        exact hc

/-- Sum of the flattened third components (the weights) of the chunks:
one `m`-fold copy of the per-annulus weight for each annulus. -/
theorem buildChunks_weight_sum {f : ℕ → Option (List ℚ × List ℚ × List ℚ)}
    {wf : ℕ → ℚ} {m : ℕ}
    (hf : ∀ i c, f i = some c → c.2.2 = List.replicate m (wf i)) :
    ∀ {n : ℕ} {cs}, buildChunks f n = some cs →
      ((cs.map (fun c => c.2.2)).flatten).sum =
        ∑ i in Finset.range n, (m : ℚ) * wf i := by
  intro n
  induction n with
  | zero =>
    intro cs h
    obtain rfl := Option.some.inj h.symm
    simp
  | succ n ih =>
    intro cs h
    rw [buildChunks] at h
    simp only [Option.bind_eq_bind'] at h
    rw [Option.bind_eq_some] at h
    obtain ⟨cs', hcs', h⟩ := h
    rw [Option.bind_eq_some] at h
    obtain ⟨c, hc, h⟩ := h
    obtain rfl := Option.some.inj h.symm
    rw [List.map_append, List.map_singleton, List.flatten_append,
      List.sum_append, ih hcs', Finset.sum_range_succ, hf n c hc]
    simp [List.sum_replicate, nsmul_eq_mul]

/-- Lengths of the flattened chunk components. -/
theorem buildChunks_flatten_length
    {f : ℕ → Option (List ℚ × List ℚ × List ℚ)} {m : ℕ}
    (hf : ∀ i c, f i = some c →
      c.1.length = m ∧ c.2.1.length = m ∧ c.2.2.length = m) :
    ∀ {n : ℕ} {cs}, buildChunks f n = some cs →
      (cs.map (fun c => c.1)).flatten.length = n * m ∧
      (cs.map (fun c => c.2.1)).flatten.length = n * m ∧
      (cs.map (fun c => c.2.2)).flatten.length = n * m := by
  intro n
  induction n with
  | zero =>
    intro cs h
    obtain rfl := Option.some.inj h.symm
    simp
  | succ n ih =>
    intro cs h
    rw [buildChunks] at h
    simp only [Option.bind_eq_bind'] at h
    rw [Option.bind_eq_some] at h
    obtain ⟨cs', hcs', h⟩ := h
    rw [Option.bind_eq_some] at h
    obtain ⟨c, hc, h⟩ := h
    obtain rfl := Option.some.inj h.symm
    obtain ⟨h1, h2, h3⟩ := ih hcs'
    obtain ⟨g1, g2, g3⟩ := hf n c hc
    refine ⟨?_, ?_, ?_⟩ <;>
      simp [List.length_append, h1, h2, h3, g1, g2, g3, Nat.succ_mul]

/-- Length of the flattened weights when every chunk's weights are an
`m`-fold replicate. -/
theorem buildChunks_weights_length
    {f : ℕ → Option (List ℚ × List ℚ × List ℚ)} {wf : ℕ → ℚ} {m : ℕ}
    (hf : ∀ i c, f i = some c → c.2.2 = List.replicate m (wf i)) :
    ∀ {n : ℕ} {cs}, buildChunks f n = some cs →
      (cs.map (fun c => c.2.2)).flatten.length = n * m := by
  intro n
  induction n with
  | zero =>
    intro cs h
    obtain rfl := Option.some.inj h.symm
    simp
  | succ n ih =>
    intro cs h
    rw [buildChunks] at h
    simp only [Option.bind_eq_bind'] at h
    rw [Option.bind_eq_some] at h
    obtain ⟨cs', hcs', h⟩ := h
    rw [Option.bind_eq_some] at h
    obtain ⟨c, hc, h⟩ := h
    obtain rfl := Option.some.inj h.symm
    rw [List.map_append, List.map_singleton, List.flatten_append,
      List.length_append, ih hcs', hf n c hc]
    simp [Nat.succ_mul]

/-- Every in-range index of the flattened weights reads the weight of
its annulus. -/
theorem buildChunks_weight_getD
    {f : ℕ → Option (List ℚ × List ℚ × List ℚ)} {wf : ℕ → ℚ} {m : ℕ}
    (hf : ∀ i c, f i = some c → c.2.2 = List.replicate m (wf i)) :
    ∀ {n : ℕ} {cs}, buildChunks f n = some cs →
      ∀ i < n, ∀ j < m,
        ((cs.map (fun c => c.2.2)).flatten).getD (i * m + j) 0 = wf i := by
  intro n
  induction n with
  | zero =>
    intro cs h i hi
    exact absurd hi (Nat.not_lt_zero i)
  | succ n ih =>
    intro cs h i hi j hj
    rw [buildChunks] at h
    simp only [Option.bind_eq_bind'] at h
    rw [Option.bind_eq_some] at h
    obtain ⟨cs', hcs', h⟩ := h
    rw [Option.bind_eq_some] at h
    obtain ⟨c, hc, h⟩ := h
    obtain rfl := Option.some.inj h.symm
    have hlen : (cs'.map (fun c => c.2.2)).flatten.length = n * m :=
      buildChunks_weights_length hf hcs'
    rw [List.map_append, List.map_singleton, List.flatten_append]
    rcases Nat.lt_succ_iff_lt_or_eq.mp hi with hi' | rfl
    · have hidx : i * m + j < (cs'.map (fun c => c.2.2)).flatten.length := by
        rw [hlen]
        calc i * m + j < i * m + m := by omega
          _ ≤ n * m := by
              have : i + 1 ≤ n := hi'
              calc i * m + m = (i + 1) * m := (Nat.succ_mul i m).symm
                _ ≤ n * m := Nat.mul_le_mul_right m this
      rw [List.getD_append _ _ _ _ hidx]
      exact ih hcs' i hi' j hj
    · have hge : (cs'.map (fun c => c.2.2)).flatten.length ≤ i * m + j := by
        rw [hlen]
        exact Nat.le_add_right _ j
      rw [List.getD_append_right _ _ _ _ hge, hlen, hf i c hc]
      have : i * m + j - i * m = j := by omega
      rw [this, show [List.replicate m (wf i)].flatten = List.replicate m (wf i)
        by simp]
      exact getD_replicate_lt _ _ hj

/-- Shape of one successful interval pass: `m` sampled angles, `m`
sampled radii, and the per-annulus weight replicated `m` times; the
weight factors through `covFrac`. -/
theorem intervalChunk_shape {rhoZ thetaZ : List ℚ} {twoPi : ℚ} {m : ℕ}
    {betaL probsL : List ℚ} {rng : ℕ → ℚ} {i : ℕ}
    {c : List ℚ × List ℚ × List ℚ}
    (h : intervalChunk rhoZ thetaZ twoPi m betaL probsL rng i = some c) :
    c.1.length = m ∧ c.2.1.length = m ∧
    c.2.2 = List.replicate m
      ((probsL.getD i 0 - probsL.getD (i + 1) 0) *
        covFrac rhoZ thetaZ twoPi (betaL.getD (i + 1) 0) / (m : ℚ)) := by
  rw [intervalChunk] at h
  simp only [Option.bind_eq_bind'] at h
  rcases halpha : alphaBounds rhoZ thetaZ twoPi (betaL.getD (i + 1) 0)
    with _ | bd
  · rw [halpha, Option.none_bind] at h
    exact absurd h (by simp)
  · rw [halpha, Option.some_bind] at h
    by_cases hlen : (arangeQ (min bd.1 bd.2) (max bd.1 bd.2 + 1 / 10)
        ((|bd.1| + |bd.2|) / (m : ℚ))).length = m + 1
    · rw [if_pos hlen] at h
      obtain rfl := Option.some.inj h.symm
      refine ⟨by simp, by simp, ?_⟩
      rw [covFrac, halpha]
    · rw [if_neg hlen] at h
      exact absurd h (by simp)

/-- `__generateData` succeeds exactly when every interval pass
succeeds, and returns the flattened chunk components. -/
theorem generateData_eq {betaL rhoZ thetaZ : List ℚ} {m : ℕ}
    {probsL : List ℚ} {rng : ℕ → ℚ} {twoPi : ℚ}
    {r : List ℚ × List ℚ × List ℚ}
    (h : generateData betaL rhoZ thetaZ m probsL rng twoPi = some r) :
    ∃ cs, buildChunks (intervalChunk rhoZ thetaZ twoPi m betaL probsL rng)
        (betaL.length - 1) = some cs ∧
      r = ((cs.map (fun c => c.1)).flatten, (cs.map (fun c => c.2.1)).flatten,
        (cs.map (fun c => c.2.2)).flatten) := by
  rw [generateData, Option.map_eq_some'] at h
  obtain ⟨cs, hcs, hr⟩ := h
  exact ⟨cs, hcs, hr.symm⟩

/-- The sum of the weights `__generateData` returns: over each annulus,
the probability decrement times the angular coverage fraction — with
the per-point division by `num_contour_points` exactly cancelled by the
`m` points sampled there. -/
theorem generateData_weight_sum {betaL rhoZ thetaZ : List ℚ} {m : ℕ}
    {probsL : List ℚ} {rng : ℕ → ℚ} {twoPi : ℚ}
    {r : List ℚ × List ℚ × List ℚ} (hm : 1 ≤ m)
    (h : generateData betaL rhoZ thetaZ m probsL rng twoPi = some r) :
    r.2.2.sum = ∑ i in Finset.range (betaL.length - 1),
      (probsL.getD i 0 - probsL.getD (i + 1) 0) *
        covFrac rhoZ thetaZ twoPi (betaL.getD (i + 1) 0) := by
  obtain ⟨cs, hcs, rfl⟩ := generateData_eq h
  have hsum := buildChunks_weight_sum
    (fun i c hc => (intervalChunk_shape hc).2.2) hcs
  rw [hsum]
  refine Finset.sum_congr rfl (fun i _ => ?_)
  have hm0 : (m : ℚ) ≠ 0 := Nat.cast_ne_zero.mpr (by omega)
  rw [mul_comm ((m : ℚ)) _, div_mul_cancel₀ _ hm0]

/-- When no zero-line radius falls inside the annulus (`any(r < 0)` is
false), the sampling bounds are the full circle. -/
theorem alphaBounds_noclip {rhoZ thetaZ : List ℚ} {twoPi beta1 : ℚ}
    (hnc : ∀ ρ ∈ rhoZ, 0 ≤ ρ - beta1) :
    alphaBounds rhoZ thetaZ twoPi beta1 = some (0, twoPi) := by
  rw [alphaBounds]
  have hfalse : ¬((rhoZ.map (fun x => x - beta1)).any
      (fun x => decide (x < 0)) = true) := by
    rw [List.any_eq_true]
    rintro ⟨x, hx, hdec⟩
    rcases List.mem_map.mp hx with ⟨ρ, hρ, rfl⟩
    rw [decide_eq_true_eq] at hdec
    linarith [hnc ρ hρ]
  rw [if_neg hfalse]

/-- Full-circle annuli have angular coverage fraction `1`. -/
theorem covFrac_noclip {rhoZ thetaZ : List ℚ} {twoPi beta1 : ℚ}
    (htp : 0 < twoPi) (hnc : ∀ ρ ∈ rhoZ, 0 ≤ ρ - beta1) :
    covFrac rhoZ thetaZ twoPi beta1 = 1 := by
  rw [covFrac, alphaBounds_noclip hnc]
  show (|(0 : ℚ)| + |twoPi|) / twoPi = 1
  rw [abs_zero, abs_of_pos htp, zero_add]
  exact div_self (ne_of_gt htp)

/-- Length of the radius list `getSamples` builds. -/
theorem getSamplesBetaLines_length (P : Prims) (tss : ℚ) (rets : List ℚ) :
    (getSamplesBetaLines P tss rets).length = rets.length + 1 := by
  simp [getSamplesBetaLines]

/-- C1 amended: for any two successful runs of the sampling core of
`PCA.getSamples` over the same return periods and zero line, the sums
of the returned weights agree — the weight sum is independent of
`num_contour_points` (and of the random draws).  Its value is the sum
over annuli of the probability decrement times the angular coverage
fraction; when no annulus is clipped by the `Hs = 0` boundary (and
`2*pi > 0`), that value is `1 - p_min`: the probability mass between
the disc centre (probability `1`, which `getSamples` prepends) and the
outermost requested contour probability — not the mass between the
minimum and maximum requested probabilities, which the original claim
asserts (see the counterexample). -/
theorem c1_weight_sum_amended (P : Prims) (twoPi tss : ℚ)
    (rets rhoZ thetaZ : List ℚ) (m m' : ℕ) (rng rng' : ℕ → ℚ)
    (hm : 1 ≤ m) (hm' : 1 ≤ m')
    (r r' : List ℚ × List ℚ × List ℚ)
    (h : getSamplesCore P twoPi tss rets rhoZ thetaZ m rng = some r)
    (h' : getSamplesCore P twoPi tss rets rhoZ thetaZ m' rng' = some r') :
    r.2.2.sum = r'.2.2.sum ∧
    (0 < twoPi →
      (∀ i, ∀ ρ ∈ rhoZ,
        0 ≤ ρ - (getSamplesBetaLines P tss rets).getD (i + 1) 0) →
      r.2.2.sum = 1 - (rets.map (probOf tss)).getLastD 1) := by
  rw [getSamplesCore] at h h'
  have hs := generateData_weight_sum hm h
  have hs' := generateData_weight_sum hm' h'
  constructor
  · rw [hs, hs']
  · intro htp hnc
    rw [hs]
    have hcov : ∀ i ∈ Finset.range
        ((getSamplesBetaLines P tss rets).length - 1),
        ((contourProbsOf tss rets).getD i 0 -
            (contourProbsOf tss rets).getD (i + 1) 0) *
          covFrac rhoZ thetaZ twoPi
            ((getSamplesBetaLines P tss rets).getD (i + 1) 0) =
        ((contourProbsOf tss rets).getD i 0 -
            (contourProbsOf tss rets).getD (i + 1) 0) := by
      intro i _
      rw [covFrac_noclip htp (hnc i), mul_one]
    rw [Finset.sum_congr rfl hcov,
      Finset.sum_range_sub' (fun i => (contourProbsOf tss rets).getD i 0),
      getSamplesBetaLines_length]
    show (1 : ℚ) - _ = _
    rw [Nat.add_sub_cancel, contourProbsOf,
      show rets.length = (rets.map (probOf tss)).length by
        rw [List.length_map],
      getD_cons_length]

/-- C10: every successful `PCA.getSamples` run with `k` return periods
and `m = num_contour_points` returns three arrays (Hs samples, T
samples, weights) of length exactly `k * m`, and the `m` samples drawn
within one annulus all carry the same weight value. -/
theorem c10_sample_lengths (P : Prims) (prm : PcaParams) (twoPi tss : ℚ)
    (rets rhoZ thetaZ : List ℚ) (m : ℕ) (rng : ℕ → ℚ) (hs t w : List ℚ)
    (h : getSamplesModel P prm twoPi tss rets rhoZ thetaZ m rng =
      some (hs, t, w)) :
    hs.length = rets.length * m ∧ t.length = rets.length * m ∧
    w.length = rets.length * m ∧
    ∀ i < rets.length, ∀ j1 < m, ∀ j2 < m,
      w.getD (i * m + j1) 0 = w.getD (i * m + j2) 0 := by
  rcases hcore : getSamplesCore P twoPi tss rets rhoZ thetaZ m rng
    with _ | ⟨alphas, radii, w0⟩
  · rw [getSamplesModel, hcore] at h
    exact absurd h (by simp)
  · rw [getSamplesModel, hcore] at h
    have hhs : hs = (transformSamples P prm alphas radii).1 :=
      (((Prod.mk.injEq _ _ _ _).mp (Option.some.inj h)).1).symm
    have hrest := ((Prod.mk.injEq _ _ _ _).mp (Option.some.inj h)).2
    have ht : t = (transformSamples P prm alphas radii).2 :=
      (((Prod.mk.injEq _ _ _ _).mp hrest).1).symm
    have hw : w = w0 := (((Prod.mk.injEq _ _ _ _).mp hrest).2).symm
    rw [getSamplesCore] at hcore
    obtain ⟨cs, hcs, hflat⟩ := generateData_eq hcore
    have halphas : alphas = (cs.map (fun c => c.1)).flatten :=
      ((Prod.mk.injEq _ _ _ _).mp hflat).1
    have hradii : radii = (cs.map (fun c => c.2.1)).flatten :=
      ((Prod.mk.injEq _ _ _ _).mp ((Prod.mk.injEq _ _ _ _).mp hflat).2).1
    have hw0 : w0 = (cs.map (fun c => c.2.2)).flatten :=
      ((Prod.mk.injEq _ _ _ _).mp ((Prod.mk.injEq _ _ _ _).mp hflat).2).2
    have hk : (getSamplesBetaLines P tss rets).length - 1 = rets.length := by
      rw [getSamplesBetaLines_length]
      omega
    have hlens := buildChunks_flatten_length
      (fun i c hc => ⟨(intervalChunk_shape hc).1, (intervalChunk_shape hc).2.1,
        by rw [(intervalChunk_shape hc).2.2, List.length_replicate]⟩) hcs
    have hal : alphas.length = rets.length * m := by
      rw [halphas, hlens.1, hk]
    have hrl : radii.length = rets.length * m := by
      rw [hradii, hlens.2.1, hk]
    have hwl : w.length = rets.length * m := by
      rw [hw, hw0, hlens.2.2, hk]
    have hzip : (alphas.zip radii).length = rets.length * m := by
      rw [List.length_zip, hal, hrl, min_self]
    refine ⟨?_, ?_, hwl, ?_⟩
    · rw [hhs]
      show ((alphas.zip radii).map (pcaSamplePoint P prm) |>.map
        Prod.fst).length = _
      rw [List.length_map, List.length_map, hzip]
    · rw [ht]
      show ((alphas.zip radii).map (pcaSamplePoint P prm) |>.map
        Prod.snd).length = _
      rw [List.length_map, List.length_map, hzip]
    · intro i hi j1 hj1 j2 hj2
      have hget := buildChunks_weight_getD
        (fun i c hc => (intervalChunk_shape hc).2.2) hcs
      rw [hk] at hget
      rw [hw, hw0, hget i hi j1 hj1, hget i hi j2 hj2]

/-- Concrete evaluations instantiating the sampling pipeline (used by
the counterexample and witnesses below). -/
theorem alphaBounds_eval : alphaBounds [100] [1] 6 1 = some (0, 6) :=
  alphaBounds_noclip (by intro ρ hρ; rcases List.mem_singleton.mp hρ with rfl; norm_num)

theorem arangeQ_eval2 : arangeQ (min (0:ℚ) 6) (max (0:ℚ) 6 + 1 / 10) ((|(0:ℚ)| + |(6:ℚ)|) / (2:ℕ)) = [0, 3, 6] := by
  have h1 : ((|(0:ℚ)| + |(6:ℚ)|) / ((2:ℕ) : ℚ)) = 3 := by norm_num
  have h2 : (max (0:ℚ) 6 + 1 / 10) = 61/10 := by norm_num
  have h3 : (min (0:ℚ) 6) = 0 := by norm_num
  rw [h1, h2, h3, arangeQ, if_pos (by norm_num)]
  have hceil : Int.ceil (((61:ℚ)/10 - 0) / 3) = 3 := by
    rw [Int.ceil_eq_iff]
    norm_num
  rw [hceil]
  show List.map _ [0, 1, 2] = [0, 3, 6]
  simp [List.map_cons]
  norm_num

theorem intervalChunk_eval20 :
    intervalChunk [100] [1] 6 2 [0, 1, 1] [1, 1/2, 1/4] (fun _ => 0) 0 =
      some ([0, 3], [0, 0], [1/4, 1/4]) := by
  rw [intervalChunk]
  simp only [Option.bind_eq_bind']
  rw [show ([0, 1, 1] : List ℚ).getD (0 + 1) 0 = 1 from rfl, alphaBounds_eval,
    Option.some_bind]
  rw [arangeQ_eval2]
  rw [if_pos (by rfl)]
  simp only [List.getD_cons_zero, List.getD_cons_succ]
  norm_num [List.replicate, List.range_succ]

theorem intervalChunk_eval21 :
    intervalChunk [100] [1] 6 2 [0, 1, 1] [1, 1/2, 1/4] (fun _ => 0) 1 =
      some ([0, 3], [1, 1], [1/8, 1/8]) := by
  rw [intervalChunk]
  simp only [Option.bind_eq_bind']
  rw [show ([0, 1, 1] : List ℚ).getD (1 + 1) 0 = 1 from rfl, alphaBounds_eval,
    Option.some_bind]
  rw [arangeQ_eval2]
  rw [if_pos (by rfl)]
  simp only [List.getD_cons_zero, List.getD_cons_succ]
  norm_num [List.replicate, List.range_succ]

theorem buildChunks_eval2 :
    buildChunks (intervalChunk [100] [1] 6 2 [0, 1, 1] [1, 1/2, 1/4]
      (fun _ => 0)) 2 =
      some [([0, 3], [0, 0], [1/4, 1/4]), ([0, 3], [1, 1], [1/8, 1/8])] := by
  show buildChunks (intervalChunk [100] [1] 6 2 [0, 1, 1] [1, 1/2, 1/4]
    (fun _ => 0)) (0 + 1 + 1) = _
  rw [buildChunks, buildChunks, buildChunks]
  simp only [Option.bind_eq_bind', intervalChunk_eval20, intervalChunk_eval21,
    Option.some_bind]
  rfl

theorem getSamplesBetaLines_eval :
    getSamplesBetaLines trivPrims 24 [2/365, 4/365] = [0, 1, 1] := by
  simp [getSamplesBetaLines, trivPrims]

theorem contourProbsOf_eval :
    contourProbsOf 24 [2/365, 4/365] = [1, 1/2, 1/4] := by
  simp only [contourProbsOf, probOf, List.map_cons, List.map_nil]
  norm_num

theorem getSamplesCore_eval2 :
    getSamplesCore trivPrims 6 24 [2/365, 4/365] [100] [1] 2 (fun _ => 0) =
      some ([0, 3, 0, 3], [0, 0, 1, 1], [1/4, 1/4, 1/8, 1/8]) := by
  rw [getSamplesCore, getSamplesBetaLines_eval, contourProbsOf_eval,
    generateData, show ([0, 1, 1] : List ℚ).length - 1 = 2 from rfl,
    buildChunks_eval2]
  simp

theorem arangeQ_eval1 : arangeQ (min (0:ℚ) 6) (max (0:ℚ) 6 + 1 / 10)
    ((|(0:ℚ)| + |(6:ℚ)|) / ((1:ℕ) : ℚ)) = [0, 6] := by
  have h1 : ((|(0:ℚ)| + |(6:ℚ)|) / ((1:ℕ) : ℚ)) = 6 := by norm_num
  have h2 : (max (0:ℚ) 6 + 1 / 10) = 61/10 := by norm_num
  have h3 : (min (0:ℚ) 6) = 0 := by norm_num
  rw [h1, h2, h3, arangeQ, if_pos (by norm_num)]
  have hceil : Int.ceil (((61:ℚ)/10 - 0) / 6) = 2 := by
    rw [Int.ceil_eq_iff]
    norm_num
  rw [hceil]
  show List.map _ [0, 1] = [0, 6]
  simp [List.map_cons]

theorem intervalChunk_eval10 :
    intervalChunk [100] [1] 6 1 [0, 1, 1] [1, 1/2, 1/4] (fun _ => 0) 0 =
      some ([0], [0], [1/2]) := by
  rw [intervalChunk]
  simp only [Option.bind_eq_bind']
  rw [show ([0, 1, 1] : List ℚ).getD (0 + 1) 0 = 1 from rfl, alphaBounds_eval,
    Option.some_bind]
  rw [arangeQ_eval1]
  rw [if_pos (by rfl)]
  simp only [List.getD_cons_zero, List.getD_cons_succ]
  norm_num [List.replicate, List.range_succ]

theorem intervalChunk_eval11 :
    intervalChunk [100] [1] 6 1 [0, 1, 1] [1, 1/2, 1/4] (fun _ => 0) 1 =
      some ([0], [1], [1/4]) := by
  rw [intervalChunk]
  simp only [Option.bind_eq_bind']
  rw [show ([0, 1, 1] : List ℚ).getD (1 + 1) 0 = 1 from rfl, alphaBounds_eval,
    Option.some_bind]
  rw [arangeQ_eval1]
  rw [if_pos (by rfl)]
  simp only [List.getD_cons_zero, List.getD_cons_succ]
  norm_num [List.replicate, List.range_succ]

theorem buildChunks_eval1 :
    buildChunks (intervalChunk [100] [1] 6 1 [0, 1, 1] [1, 1/2, 1/4]
      (fun _ => 0)) 2 =
      some [([0], [0], [1/2]), ([0], [1], [1/4])] := by
  show buildChunks (intervalChunk [100] [1] 6 1 [0, 1, 1] [1, 1/2, 1/4]
    (fun _ => 0)) (0 + 1 + 1) = _
  rw [buildChunks, buildChunks, buildChunks]
  simp only [Option.bind_eq_bind', intervalChunk_eval10, intervalChunk_eval11,
    Option.some_bind]
  rfl

theorem getSamplesCore_eval1 :
    getSamplesCore trivPrims 6 24 [2/365, 4/365] [100] [1] 1 (fun _ => 0) =
      some ([0, 0], [0, 1], [1/2, 1/4]) := by
  rw [getSamplesCore, getSamplesBetaLines_eval, contourProbsOf_eval,
    generateData, show ([0, 1, 1] : List ℚ).length - 1 = 2 from rfl,
    buildChunks_eval1]
  simp

theorem getSamplesModel_eval2 :
    getSamplesModel trivPrims prm0 6 24 [2/365, 4/365] [100] [1] 2
      (fun _ => 0) =
      some ([0, 0, 1, 1], [0, 0, 0, 0], [1/4, 1/4, 1/8, 1/8]) := by
  rw [getSamplesModel, getSamplesCore_eval2]
  show some _ = _
  simp only [transformSamples, pcaSamplePoint, trivPrims, prm0,
    princomp_inv_pt, mu_fcn, sigma_fcn, List.zip_cons_cons, List.zip_nil_right,
    List.map_cons, List.map_nil]
  norm_num

/-- C1 counterexample: `time_ss = 24` and increasing return periods
`[2/365, 4/365]` give requested contour probabilities `1/2` (maximum)
and `1/4` (minimum); with `num_contour_points = 2` and a zero line that
clips no annulus, the weights `getSamples` returns sum to `3/4` — the
mass between the prepended centre probability `1` and the minimum
requested probability — and not to `1/2 - 1/4 = 1/4`, the "total
probability mass between the minimum and maximum requested contour
probabilities" the claim asserts. -/
theorem c1_claim_counterexample :
    contourProbsOf 24 [2/365, 4/365] = [1, 1/2, 1/4] ∧
    (getSamplesCore trivPrims 6 24 [2/365, 4/365] [100] [1] 2
      (fun _ => 0)).map (fun r => r.2.2.sum) = some (3/4) ∧
    ((3 : ℚ) / 4) ≠ 1/2 - 1/4 := by
  refine ⟨contourProbsOf_eval, ?_, by norm_num⟩
  rw [getSamplesCore_eval2, Option.map_some']
  norm_num

/-- C1 witness: the amended theorem applied at the concrete instance
with `num_contour_points` 2 and 1. -/
theorem c1_weight_sum_witness :
    ((1 : ℕ) ≤ 2) ∧
    (([1/4, 1/4, 1/8, 1/8] : List ℚ).sum = ([1/2, 1/4] : List ℚ).sum ∧
      ((0 : ℚ) < 6 →
        (∀ i, ∀ ρ ∈ ([100] : List ℚ),
          0 ≤ ρ - (getSamplesBetaLines trivPrims 24 [2/365, 4/365]).getD
            (i + 1) 0) →
        ([1/4, 1/4, 1/8, 1/8] : List ℚ).sum =
          1 - (([2/365, 4/365] : List ℚ).map (probOf 24)).getLastD 1)) :=
  ⟨by norm_num,
    c1_weight_sum_amended trivPrims 6 24 [2/365, 4/365] [100] [1] 2 1
      (fun _ => 0) (fun _ => 0) (by norm_num) le_rfl
      ([0, 3, 0, 3], [0, 0, 1, 1], [1/4, 1/4, 1/8, 1/8])
      ([0, 0], [0, 1], [1/2, 1/4])
      getSamplesCore_eval2 getSamplesCore_eval1⟩

/-- C10 witness: two return periods, two points per interval; the
returned arrays have length 4 and the per-annulus weights repeat. -/
theorem c10_sample_lengths_witness :
    (([0, 0, 1, 1] : List ℚ).length = ([2/365, 4/365] : List ℚ).length * 2 ∧
      ([0, 0, 0, 0] : List ℚ).length = ([2/365, 4/365] : List ℚ).length * 2 ∧
      ([1/4, 1/4, 1/8, 1/8] : List ℚ).length =
        ([2/365, 4/365] : List ℚ).length * 2 ∧
      ∀ i < ([2/365, 4/365] : List ℚ).length, ∀ j1 < 2, ∀ j2 < 2,
        ([1/4, 1/4, 1/8, 1/8] : List ℚ).getD (i * 2 + j1) 0 =
          ([1/4, 1/4, 1/8, 1/8] : List ℚ).getD (i * 2 + j2) 0) :=
  c10_sample_lengths trivPrims prm0 6 24 [2/365, 4/365] [100] [1] 2
    (fun _ => 0) [0, 0, 1, 1] [0, 0, 0, 0] [1/4, 1/4, 1/8, 1/8]
    getSamplesModel_eval2
